import Mathlib

/-!
# Verification of the `mapi` collector core

This file shallowly embeds the core of the `mapi` repository
(`mapi/core.py`, `mapi/collector.py`, `tests/doubles.py`) in Lean 4 and
proves or refutes the frozen claims about it.

Modelling conventions:
* Python `dict[str, str]` values (route args, query args, headers) are
  insertion-ordered association lists `List (String × String)` with unique
  keys maintained by construction in the scenarios we evaluate.  Python
  `dict` equality (`==`) is key/value-map equality, modelled by `dictEq`.
* Python strings are `String`; `str.strip('/')` is `pyStrip`.
* `string.Formatter().parse` is modelled by `parseFields` for well-formed
  templates (`{{`/`}}` escapes, `{name}`, `{name:spec}`, `{name!conv}`);
  an unterminated field is treated as extending to the end of the string
  (CPython raises there; no claim involves such a template).
* Hooks are records of Lean functions.  A Python handler can return a
  `Request`/`Response` instance, the `Abort` sentinel, `None` (or any other
  value), or raise; these four outcomes are the `HookOut` constructors
  `ret`, `abort`, `skip`, `fault`.  A response handler may additionally call
  `collector.register(...)` during its execution; the list of requests it
  registers is returned alongside its outcome.
-/

namespace Mapi

/-- Python `s.strip(c)` on a list of characters: remove every leading and
trailing occurrence of `c`. -/
def pyStripList (c : Char) (s : List Char) : List Char :=
  ((s.dropWhile (· = c)).reverse.dropWhile (· = c)).reverse

/-- Python `s.strip('/')`-style strip on `String` for a single strip
character `c`. -/
def pyStrip (c : Char) (s : String) : String :=
  ⟨pyStripList c s.toList⟩

/-- Python dict lookup `d.get(k)` on an insertion-ordered association
list: the value of the first pair whose key is `k`. -/
def alookup (d : List (String × String)) (k : String) : Option String :=
  match d with
  | [] => none
  | (k', v) :: rest => if k' = k then some v else alookup rest k

/-- Python dict equality `d1 == d2`: the two mappings agree as key→value
maps (insertion order is irrelevant, assuming unique keys). -/
def dictEq (a b : List (String × String)) : Bool :=
  a.all (fun kv => alookup b kv.1 = some kv.2) &&
  b.all (fun kv => alookup a kv.1 = some kv.2)

/-- The keys of a dict, in insertion order (Python `d.keys()`). -/
def dictKeys (d : List (String × String)) : List String := d.map Prod.fst

/-!
## `string.Formatter().parse` and `str.format`

`Resource.route_params` is
`[name for _, name, _, _ in Formatter().parse(self.route_template) if name]`
and `Request.route` is `self.resource.route_template.format(**self.route_args)`.
A field `{name:spec}` / `{name!conv}` contributes the part of its body before
the first `:` or `!` as the field name; `{{` and `}}` are literal braces.
-/

/-- The field name of a replacement-field body: the part before the first
`:` or `!` (CPython splits the field at the conversion/format-spec markers). -/
def fieldName (body : List Char) : List Char :=
  body.takeWhile (fun c => c ≠ ':' ∧ c ≠ '!')

/-- Scanner for `parseFields`: `mode = none` is literal text (`{{`/`}}`
are escaped braces, `{` opens a field); `mode = some acc` is inside a
replacement field whose body so far is `acc` reversed, closed by the first
`}`. -/
def parseFieldsGo : Option (List Char) → List Char → List (List Char)
  | none, [] => []
  | none, '{' :: '{' :: rest => parseFieldsGo none rest
  | none, '}' :: '}' :: rest => parseFieldsGo none rest
  | none, '{' :: rest => parseFieldsGo (some []) rest
  | none, _ :: rest => parseFieldsGo none rest
  | some acc, [] => [fieldName acc.reverse]
  | some acc, '}' :: rest => fieldName acc.reverse :: parseFieldsGo none rest
  | some acc, c :: rest => parseFieldsGo (some (c :: acc)) rest

/-- Model of `string.Formatter().parse`: the list of replacement-field
names occurring in the template, in order (escaped braces contribute no
field).  An unterminated `{` field is taken to extend to the end. -/
def parseFields (l : List Char) : List (List Char) :=
  parseFieldsGo none l

/-- The substitution made for one replacement field with body `body`: the
value bound to the field name in `args`.  An unbound name raises `KeyError`
in CPython; here it substitutes the empty string — unreachable for a
`Request` that passed construction-time validation, which is the only way
the source computes `route`. -/
def fieldSubst (args : List (String × String)) (body : List Char) : List Char :=
  match alookup args ⟨fieldName body⟩ with
  | some v => v.toList
  | none => []

/-- Scanner for `formatChars`, with the same two modes as
`parseFieldsGo`. -/
def formatGo (args : List (String × String)) :
    Option (List Char) → List Char → List Char
  | none, [] => []
  | none, '{' :: '{' :: rest => '{' :: formatGo args none rest
  | none, '}' :: '}' :: rest => '}' :: formatGo args none rest
  | none, '{' :: rest => formatGo args (some []) rest
  | none, c :: rest => c :: formatGo args none rest
  | some acc, [] => fieldSubst args acc.reverse
  | some acc, '}' :: rest => fieldSubst args acc.reverse ++ formatGo args none rest
  | some acc, c :: rest => formatGo args (some (c :: acc)) rest

/-- Model of `template.format(**args)`: substitute each replacement field
by the value bound to its field name, and unescape doubled braces. -/
def formatChars (args : List (String × String)) (l : List Char) : List Char :=
  formatGo args none l

/-!
## Data model (`mapi/core.py`)

A `Resource` belongs to an `API`; the only attributes of the pair that the
identity model reads are the API's `host` and the resource's
`route_template`, so the embedding flattens `resource.api.host` into the
resource record.  The hook lists attached to the resource and the API are
Lean functions and are threaded separately (see the collector model below),
because a hook's handlers consume `Request`s: storing them inside `Request`
would be a negative occurrence.
-/

structure Resource where
  host : String
  route_template : String
deriving DecidableEq, Repr

/-- Source `Resource.route_params`:
`[name for _, name, _, _ in Formatter().parse(self.route_template) if name]`
(the `if name` drops empty field names). -/
def Resource.route_params (res : Resource) : List String :=
  ((parseFields res.route_template.toList).filter (fun n => n ≠ [])).map
    (fun n => ⟨n⟩)

structure Request where
  resource : Resource
  route_args : List (String × String)
  query_args : List (String × String)
  headers : List (String × String)
deriving DecidableEq, Repr

/-- Source `Request.route`: `self.resource.route_template.format(**self.route_args)`. -/
def Request.route (r : Request) : String :=
  ⟨formatChars r.route_args r.resource.route_template.toList⟩

/-- Source `Request.uri`:
`self.resource.api.host.strip('/') + '/' + self.route.strip('/')`. -/
def Request.uri (r : Request) : String :=
  pyStrip '/' r.resource.host ++ "/" ++ pyStrip '/' r.route

/-- Source `Request.__eq__` (between two `Request`s):
`self.uri == other.uri and self.query_args == other.query_args`.
Headers do not occur. -/
def Request.eq (a b : Request) : Bool :=
  (a.uri = b.uri) && dictEq a.query_args b.query_args

/-- The tuple that `Request.__hash__` feeds to Python's `hash`:
`(self.uri, tuple(self.query_args.items()))`.  `dict.items()` iterates in
insertion order, so the second component is the ordered list of query
pairs.  Python's `hash` of a `Request` is a function of exactly this
tuple, so two requests get equal hashes whenever their `hashKey`s are
equal, and distinct `hashKey`s are hashed as distinct tuples. -/
def Request.hashKey (r : Request) : String × List (String × String) :=
  (r.uri, r.query_args)

/-- The two validation-error kinds raised by `Request._validate_route_args`
(both are `ValueError`s whose messages name the offending key). -/
inductive RouteArgError where
  | missingRouteArgument (param : String)
  | unknownRouteParameter (param : String)
deriving DecidableEq, Repr

/-- Source `Request._validate_route_args`: with `params` the placeholder set of the
template and `args` the supplied key set, a nonempty `params - args` raises
`Missing route argument for parameter <k>` for one missing key, and
otherwise a nonempty `args - params` raises `Unknown route parameter <k>`
for one extra key.  CPython picks `list(the_set)[0]`, an unspecified
element; the model picks the first such key in template (resp. insertion)
order. -/
def validate_route_args (res : Resource) (route_args : List (String × String)) :
    Option RouteArgError :=
  let params := res.route_params
  let args := dictKeys route_args
  match params.find? (fun p => !(args.contains p)) with
  | some p => some (.missingRouteArgument p)
  | none =>
      match args.find? (fun a => !(params.contains a)) with
      | some a => some (.unknownRouteParameter a)
      | none => none

/-- Source `Request.__init__`: store the fields and run `_validate_route_args`,
raising the validation error if there is one. -/
def Request.make (resource : Resource)
    (route_args query_args headers : List (String × String)) :
    Except RouteArgError Request :=
  match validate_route_args resource route_args with
  | some e => .error e
  | none => .ok ⟨resource, route_args, query_args, headers⟩

structure Response where
  request : Request
  status : Nat
  body : String
  headers : List (String × String)
deriving DecidableEq, Repr

/-!
## Hooks (`mapi/core.py`)

A Python hook handler can return a `Request`/`Response` instance (`ret`),
the `Abort` sentinel (`abort`), `None` or any other value (`skip` — the
base `Hook` handlers return `None`), or raise an exception (`fault`).
-/

inductive HookOut (α : Type) where
  | ret (a : α)
  | abort
  | skip
  | fault

/-- A hook.  `handle_response` additionally reports the requests it
registered on the collector (via the `collector` context argument) during
its execution, in registration order; these registrations take effect at
call time, also when the handler then returns `Abort` or raises.  The
request-phase handlers of the hooks modelled here do not register work, so
`handle_request` carries no such effect. -/
structure Hook where
  handle_request : Request → HookOut Request
  handle_response : Response → HookOut Response × List Request

/-- Outcome of `Request.run_hooks`: the returned request and the hooks
invoked, in invocation order, or an escaping exception. -/
inductive ReqChain where
  | ok (request : Request) (invoked : List Hook)
  | fault (invoked : List Hook)

/-- Source `Request.run_hooks(hooks)`: iterate the hooks in forward order; `break`
on `Abort` (the working request, not the sentinel, is returned); a returned
`Request` instance replaces the working value; any other return value keeps
it; an exception propagates. -/
def Request.run_hooks (r : Request) : List Hook → ReqChain
  | [] => .ok r []
  | h :: hs =>
      match h.handle_request r with
      | .fault => .fault [h]
      | .abort => .ok r [h]
      | .ret r' =>
          match Request.run_hooks r' hs with
          | .ok r'' tr => .ok r'' (h :: tr)
          | .fault tr => .fault (h :: tr)
      | .skip =>
          match Request.run_hooks r hs with
          | .ok r'' tr => .ok r'' (h :: tr)
          | .fault tr => .fault (h :: tr)

/-- Outcome of `Response.run_hooks`: the returned response, the requests
registered during the chain, and the hooks invoked in invocation order, or
an escaping exception (with the registrations already made). -/
inductive RespChain where
  | ok (response : Response) (registered : List Request) (invoked : List Hook)
  | fault (registered : List Request) (invoked : List Hook)

/-- The loop body of `Response.run_hooks`, iterating an already-reversed
hook list in forward order with the same `break`/replace/keep semantics as
the request phase. -/
def runResponseChain (resp : Response) : List Hook → RespChain
  | [] => .ok resp [] []
  | h :: hs =>
      match h.handle_response resp with
      | (.fault, regs) => .fault regs [h]
      | (.abort, regs) => .ok resp regs [h]
      | (.ret r', regs) =>
          match runResponseChain r' hs with
          | .ok r'' regs' tr => .ok r'' (regs ++ regs') (h :: tr)
          | .fault regs' tr => .fault (regs ++ regs') (h :: tr)
      | (.skip, regs) =>
          match runResponseChain resp hs with
          | .ok r'' regs' tr => .ok r'' (regs ++ regs') (h :: tr)
          | .fault regs' tr => .fault (regs ++ regs') (h :: tr)

/-- Source `Response.run_hooks(hooks)`: `for hook in reversed(hooks): ...`. -/
def Response.run_hooks (resp : Response) (hooks : List Hook) : RespChain :=
  runResponseChain resp hooks.reverse

/-!
## Storage (`tests/doubles.py`, `FakeDatabase`)

`FakeDatabase._entries` is a Python dict keyed by `Request`.  Two keys land
in the same dict slot iff their hashes are equal and they compare `==`.
The hash of a request is a function of `Request.hashKey` alone, so
`sameSlot` (hash keys equal AND `__eq__` true) characterises slot sharing,
up to accidental hash collisions between distinct hash keys — collisions
could only merge further slots, never separate these.
-/

def sameSlot (a b : Request) : Bool :=
  (a.hashKey = b.hashKey) && Request.eq a b

/-- Source `FakeDatabase.put`: `self._entries[request] = response`.  A dict update
keeps the original key object and its insertion position and replaces the
value; a new key is appended. -/
def dbPut : List (Request × Response) → Request → Response →
    List (Request × Response)
  | [], k, v => [(k, v)]
  | e :: rest, k, v =>
      if sameSlot e.1 k then (e.1, v) :: rest else e :: dbPut rest k v

/-- Source `FakeDatabase.get`: `self._entries.get(request)`. -/
def dbGet (db : List (Request × Response)) (k : Request) : Option Response :=
  (db.find? (fun e => sameSlot e.1 k)).map Prod.snd

/-- Source `FakeDatabase.iter_responses`: `yield from self._entries.values()`
(dict values in insertion order). -/
def iter_responses (db : List (Request × Response)) : List Response :=
  db.map Prod.snd

/-!
## The worker unit (`Collector._worker`, loop body)

One iteration of the worker loop, processing one dequeued request:

```
hooks = resource.hooks + resource.api.hooks
request = request.run_hooks(hooks, collector=self)
if request is Abort:            # dead: run_hooks returns a Request, never the sentinel
    continue
response = await self._http_client.send(request)
response = response.run_hooks(hooks, collector=self)
if response is not Abort:       # always true, for the same reason
    self._db.put(request, response)
```

wrapped in `try: ... finally: self._async_queue.task_done()`.  `send` is
the transport port; `.error` models a raised `TransportError`.
-/

structure UnitEffects where
  dispatched : List Request
  stored : Option (Request × Response)
  registered : List Request
  faulted : Bool
deriving Repr

/-- The effects of processing one unit of work: which request (if any) was
dispatched on the transport, what (if anything) was stored, which requests
the response hooks registered, and whether an exception escaped the unit. -/
def processUnit (send : Request → Except Unit Response)
    (resHooks apiHooks : List Hook) (r : Request) : UnitEffects :=
  let hooks := resHooks ++ apiHooks
  match r.run_hooks hooks with
  | .fault _ => ⟨[], none, [], true⟩
  | .ok req' _ =>
      match send req' with
      | .error _ => ⟨[req'], none, [], true⟩
      | .ok resp =>
          match resp.run_hooks hooks with
          | .fault regs _ => ⟨[req'], none, regs, true⟩
          | .ok resp' regs _ => ⟨[req'], some (req', resp'), regs, false⟩

/-!
## Collector run model (`Collector._run`, `Collector._worker`)

`_run` moves the pre-registered requests into a fresh `asyncio.Queue`
(each `put_nowait` increments the queue's unfinished-task count), spawns
the workers, and `await`s `queue.join()`, which resumes exactly when the
unfinished count reaches zero; it then cancels the workers.  A worker
dequeues a request (`get`), processes the unit, and calls `task_done()` in
a `finally` (decrementing the count); a registration performed by a hook
during the unit (`register` → `put_nowait`) appends to the queue and
increments the count at call time.

Two models are used:

* `CStep`, a transition relation for the quiescence argument.  It
  over-approximates scheduling: any number of units may be in flight
  simultaneously (no worker-count bound), an in-flight unit may register
  any request at any time, and a unit may finish with any storage effect.
  Every behaviour of the real worker pool, for any worker count and
  interleaving, is a trace of `CStep`; safety properties proved for all
  `CStep` traces therefore cover the implementation.
* `workerStep`, the exact deterministic loop of a one-worker collector
  (`num_workers=1`), used to evaluate concrete scenarios end to end.
-/

structure CConfig where
  /-- Requests sitting in the `asyncio.Queue`, FIFO. -/
  queue : List Request
  /-- Requests dequeued by some worker whose unit has not yet reached
  `task_done()`. -/
  inflight : List Request
  /-- The queue's unfinished-task count (`join()` resumes iff it is 0). -/
  unfinished : Nat
  db : List (Request × Response)

/-- One transition of the collector system.  `take`: a worker dequeues the
head of the queue (the count is untouched — `get` does not decrement it).
`register`: a hook running inside an in-flight unit calls
`collector.register`, i.e. `put_nowait`: append and increment.  `finish`:
an in-flight unit reaches its `finally`: the storage effect (if any) is
applied and `task_done()` decrements the count. -/
inductive CStep : CConfig → CConfig → Prop where
  | take (r : Request) (q fl : List Request) (u : Nat) (db : List (Request × Response)) :
      CStep ⟨r :: q, fl, u, db⟩ ⟨q, fl ++ [r], u, db⟩
  | register (r' : Request) (q fl : List Request) (u : Nat)
      (db : List (Request × Response)) (hfl : fl ≠ []) :
      CStep ⟨q, fl, u, db⟩ ⟨q ++ [r'], fl, u + 1, db⟩
  | finish (r : Request) (q l1 l2 : List Request) (u : Nat)
      (db db' : List (Request × Response))
      (hdb : db' = db ∨ ∃ k v, db' = dbPut db k v) :
      CStep ⟨q, l1 ++ r :: l2, u, db⟩ ⟨q, l1 ++ l2, u - 1, db'⟩

/-- Reachability from the state `_run` is in when `await queue.join()`
starts: the pre-registered requests have been moved into the async queue
(`_fill_async_queue`, one `put_nowait` each, so the count equals the queue
length), nothing is in flight yet, and the database holds whatever it held
before the run. -/
def CReach (init : List Request) (db0 : List (Request × Response)) (c : CConfig) : Prop :=
  Relation.ReflTransGen CStep ⟨init, [], init.length, db0⟩ c

/-- The quiescence invariant: the unfinished-task count always equals
queued plus in-flight work. -/
def CInv (c : CConfig) : Prop :=
  c.unfinished = c.queue.length + c.inflight.length

/-!
### Deterministic one-worker executor

With `num_workers = 1` and synchronous hooks/transport stubs, the asyncio
run of the collector is exactly this loop: dequeue the head, process the
unit, append its registrations (`put_nowait` each increments the count),
`task_done()` (decrement), and — because the worker body is a
`try`/`finally` with no `except` — stop looping if an exception escaped
the unit.  On an empty queue the worker suspends in `get()`; if the count
is zero at that point, `join()` resumes and the run ends.
-/

structure WConfig where
  queue : List Request
  unfinished : Nat
  db : List (Request × Response)
  /-- Whether the (single) worker task is still running its loop. -/
  alive : Bool
deriving Repr

/-- One iteration of the single worker's loop (a no-op on an empty queue,
where the worker is parked in `get()`, and on a dead worker). -/
def workerStep (send : Request → Except Unit Response)
    (resHooks apiHooks : List Hook) (c : WConfig) : WConfig :=
  if c.alive then
    match c.queue with
    | [] => c
    | r :: rest =>
        let e := processUnit send resHooks apiHooks r
        { queue := rest ++ e.registered
          unfinished := c.unfinished + e.registered.length - 1
          db := match e.stored with
                | some (k, v) => dbPut c.db k v
                | none => c.db
          alive := !e.faulted }
  else c

/-- Iterate the worker loop `n` times. -/
def workerRun (send : Request → Except Unit Response)
    (resHooks apiHooks : List Hook) : Nat → WConfig → WConfig
  | 0, c => c
  | n + 1, c => workerRun send resHooks apiHooks n (workerStep send resHooks apiHooks c)

/-!
## Concrete scenario material

Hooks, requests and transport stubs used to evaluate the model on the
scenarios of the claims.  They follow the shapes in `tests/test_mapi.py`,
`tests/doubles.py` and `mapi/hooks.py` (`HeaderPagination`).
-/

/-- Python dict item assignment `d[k] = v`: replace the value of an
existing key in place, else append. -/
def dictSet (d : List (String × String)) (k v : String) : List (String × String) :=
  match d with
  | [] => [(k, v)]
  | kv :: rest => if kv.1 = k then (k, v) :: rest else kv :: dictSet rest k v

/-- The `users` resource of the test fixture: `API('http://test.org')`,
route template `users` (no placeholders). -/
def usersResource : Resource := ⟨"http://test.org", "users"⟩

/-- A plain request for `usersResource` with no arguments and no headers. -/
def plainReq : Request := ⟨usersResource, [], [], []⟩

/-- A transport stub in the style of `HttpClientStub.send`: always answer
status 200 with a fixed body and no headers. -/
def stubSend (r : Request) : Except Unit Response := .ok ⟨r, 200, "ok", []⟩

/-- A hook whose `handle_request` returns the `Abort` sentinel and whose
`handle_response` is the base no-op. -/
def abortReqHook : Hook :=
  ⟨fun _ => .abort, fun _ => (.skip, [])⟩

/-- A hook whose `handle_request` returns a replacement request carrying a
marker header (so a later position in the chain is observable). -/
def tagHook : Hook :=
  ⟨fun q => .ret ⟨q.resource, q.route_args, q.query_args, [("tag", "1")]⟩,
   fun _ => (.skip, [])⟩

/-- A hook whose `handle_response` returns the `Abort` sentinel and whose
`handle_request` is the base no-op. -/
def abortRespHook : Hook :=
  ⟨fun _ => .skip, fun _ => (.abort, [])⟩

/-- A request for `usersResource` carrying a `page` query argument. -/
def pageReq (p : String) : Request := ⟨usersResource, [], [("page", p)], []⟩

/-- A hook whose `handle_request` raises on page 1 and is a no-op
otherwise. -/
def faultHook : Hook :=
  ⟨fun q => if alookup q.query_args "page" = some "1" then .fault else .skip,
   fun _ => (.skip, [])⟩

/-- Model of `HeaderPagination.handle_response`: read the `x-next-page`
response header; if present, set `page` in the request's query args and
register a request for the same resource with those arguments (registered
requests are built by `Resource.as_request`, so with empty headers);
return `None` either way. -/
def paginationHook : Hook :=
  ⟨fun _ => .skip,
   fun resp =>
     (.skip,
      match alookup resp.headers "x-next-page" with
      | some np =>
          [⟨resp.request.resource, resp.request.route_args,
            dictSet resp.request.query_args "page" np, []⟩]
      | none => [])⟩

/-- A paginated transport stub: pages 1 and 2 answer with an
`x-next-page` header pointing at the next page; page 3 is terminal. -/
def pagSend (r : Request) : Except Unit Response :=
  .ok ⟨r, 200, "body",
       match alookup r.query_args "page" with
       | some "1" => [("x-next-page", "2")]
       | some "2" => [("x-next-page", "3")]
       | _ => []⟩

/-!
## Helper lemmas
-/

theorem alookup_of_nodup {d : List (String × String)}
    (hnd : (dictKeys d).Nodup) :
    ∀ kv ∈ d, alookup d kv.1 = some kv.2 := by
  induction d with
  | nil => intro kv hkv; cases hkv
  | cons e rest ih =>
      intro kv hkv
      simp only [dictKeys, List.map_cons, List.nodup_cons] at hnd
      rcases List.mem_cons.mp hkv with h | h
      · subst h
        simp [alookup]
      · have hne : e.1 ≠ kv.1 := by
          intro hc
          exact hnd.1 (hc ▸ List.mem_map_of_mem Prod.fst h)
        simpa [alookup, hne] using ih hnd.2 kv h

theorem dictEq_refl {d : List (String × String)}
    (hnd : (dictKeys d).Nodup) : dictEq d d = true := by
  simp only [dictEq, Bool.and_eq_true, List.all_eq_true, decide_eq_true_eq]
  exact ⟨fun kv h => alookup_of_nodup hnd kv h, fun kv h => alookup_of_nodup hnd kv h⟩

theorem sameSlot_congr {k1 k2 : Request} (h : sameSlot k1 k2 = true) :
    ∀ e : Request, sameSlot e k1 = sameSlot e k2 := by
  intro e
  simp only [sameSlot, Request.eq, Request.hashKey, Bool.and_eq_true,
    decide_eq_true_eq] at h
  obtain ⟨hkey, -⟩ := h
  have huri : k1.uri = k2.uri := congrArg Prod.fst hkey
  have hq : k1.query_args = k2.query_args := congrArg Prod.snd hkey
  simp only [sameSlot, Request.eq, Request.hashKey, huri, hq]

theorem dbGet_dbPut {k1 k2 : Request} (h : sameSlot k1 k2 = true)
    (v : Response) :
    ∀ db : List (Request × Response), dbGet (dbPut db k1 v) k2 = some v := by
  intro db
  induction db with
  | nil => simp [dbPut, dbGet, List.find?, h]
  | cons e rest ih =>
      by_cases he : sameSlot e.1 k1 = true
      · have he2 : sameSlot e.1 k2 = true := (sameSlot_congr h e.1) ▸ he
        simp [dbPut, dbGet, List.find?, he, he2]
      · have he2 : sameSlot e.1 k2 = false := by
          rw [← sameSlot_congr h e.1]
          exact Bool.not_eq_true _ ▸ he
        simp only [dbPut, if_neg he]
        simpa [dbGet, List.find?_cons, he2] using ih

theorem run_hooks_all_skip (r : Request) :
    ∀ hooks : List Hook, (∀ h ∈ hooks, h.handle_request r = .skip) →
      Request.run_hooks r hooks = .ok r hooks := by
  intro hooks
  induction hooks with
  | nil => intro _; rfl
  | cons h hs ih =>
      intro hall
      have hh : h.handle_request r = .skip := hall h (List.mem_cons_self h hs)
      have hrec := ih (fun g hg => hall g (List.mem_cons_of_mem h hg))
      simp [Request.run_hooks, hh, hrec]

theorem run_hooks_no_abort_fault :
    ∀ (hooks : List Hook) (r : Request),
      (∀ h ∈ hooks, ∀ q, h.handle_request q ≠ .abort ∧ h.handle_request q ≠ .fault) →
      ∃ r', Request.run_hooks r hooks = .ok r' hooks := by
  intro hooks
  induction hooks with
  | nil => exact fun r _ => ⟨r, rfl⟩
  | cons h hs ih =>
      intro r hall
      have hh := hall h (List.mem_cons_self h hs) r
      have hall' := fun g hg => hall g (List.mem_cons_of_mem h hg)
      cases hout : h.handle_request r with
      | abort => exact absurd hout hh.1
      | fault => exact absurd hout hh.2
      | ret r' =>
          obtain ⟨r'', hrec⟩ := ih r' hall'
          exact ⟨r'', by simp [Request.run_hooks, hout, hrec]⟩
      | skip =>
          obtain ⟨r'', hrec⟩ := ih r hall'
          exact ⟨r'', by simp [Request.run_hooks, hout, hrec]⟩

theorem respChain_all_skip (s : Response) :
    ∀ hooks : List Hook, (∀ h ∈ hooks, (h.handle_response s).1 = .skip) →
      ∃ regs, runResponseChain s hooks = .ok s regs hooks := by
  intro hooks
  induction hooks with
  | nil => exact fun _ => ⟨[], rfl⟩
  | cons h hs ih =>
      intro hall
      have hh : h.handle_response s = (.skip, (h.handle_response s).2) := by
        have := hall h (List.mem_cons_self h hs)
        exact Prod.ext this rfl
      obtain ⟨regs, hrec⟩ := ih (fun g hg => hall g (List.mem_cons_of_mem h hg))
      refine ⟨(h.handle_response s).2 ++ regs, ?_⟩
      rw [runResponseChain, hh]
      simp [hrec]

theorem respChain_no_abort_fault :
    ∀ (hooks : List Hook) (s : Response),
      (∀ h ∈ hooks, ∀ t, (h.handle_response t).1 ≠ .abort ∧ (h.handle_response t).1 ≠ .fault) →
      ∃ s' regs, runResponseChain s hooks = .ok s' regs hooks := by
  intro hooks
  induction hooks with
  | nil => exact fun s _ => ⟨s, [], rfl⟩
  | cons h hs ih =>
      intro s hall
      have hh := hall h (List.mem_cons_self h hs) s
      have hall' := fun g hg => hall g (List.mem_cons_of_mem h hg)
      have hsplit : h.handle_response s = ((h.handle_response s).1, (h.handle_response s).2) := rfl
      cases hout : (h.handle_response s).1 with
      | abort => exact absurd hout hh.1
      | fault => exact absurd hout hh.2
      | ret s1 =>
          obtain ⟨s'', regs, hrec⟩ := ih s1 hall'
          refine ⟨s'', (h.handle_response s).2 ++ regs, ?_⟩
          rw [runResponseChain, hsplit, hout]
          simp [hrec]
      | skip =>
          obtain ⟨s'', regs, hrec⟩ := ih s hall'
          refine ⟨s'', (h.handle_response s).2 ++ regs, ?_⟩
          rw [runResponseChain, hsplit, hout]
          simp [hrec]

theorem dropWhile_head_false (p : Char → Bool) :
    ∀ (l : List Char) (a : Char), (l.dropWhile p).head? = some a → p a = false := by
  intro l
  induction l with
  | nil => intro a h; cases h
  | cons b t ih =>
      intro a h
      by_cases hb : p b
      · exact ih a (by simpa [List.dropWhile, hb] using h)
      · have : b = a := by simpa [List.dropWhile, hb] using h
        subst this
        exact Bool.not_eq_true _ ▸ hb

theorem dropWhile_isSuffix (p : Char → Bool) :
    ∀ l : List Char, (l.dropWhile p).IsSuffix l := by
  intro l
  induction l with
  | nil => exact List.nil_suffix
  | cons b t ih =>
      by_cases hb : p b
      · simpa [List.dropWhile, hb] using ih.trans (List.suffix_cons b t)
      · simp [List.dropWhile, hb]

theorem getLast?_of_suffix {u w : List Char} (h : u.IsSuffix w) (hne : u ≠ []) :
    u.getLast? = w.getLast? := by
  obtain ⟨t, rfl⟩ := h
  exact (List.getLast?_append_of_ne_nil t hne).symm

theorem pyStripList_getLast_ne (c : Char) (s : List Char) (a : Char)
    (h : (pyStripList c s).getLast? = some a) : a ≠ c := by
  have h' : ((s.dropWhile (· = c)).reverse.dropWhile (· = c)).head? = some a := by
    simpa [pyStripList, List.getLast?_reverse] using h
  intro hc
  have := dropWhile_head_false (· = c) _ a h'
  simp [hc] at this

theorem pyStripList_head_ne (c : Char) (s : List Char) (a : Char)
    (h : (pyStripList c s).head? = some a) : a ≠ c := by
  set t := s.dropWhile (· = c) with ht
  set u := t.reverse.dropWhile (· = c) with hu
  have hlast : u.getLast? = some a := by
    simpa [pyStripList, ← ht, ← hu, List.head?_reverse] using h
  have hune : u ≠ [] := by
    intro hc; rw [hc] at hlast; cases hlast
  have hsuf : u.IsSuffix t.reverse := hu ▸ dropWhile_isSuffix (· = c) t.reverse
  have : t.reverse.getLast? = some a := getLast?_of_suffix hsuf hune ▸ hlast
  have hhead : t.head? = some a := by simpa [List.getLast?_reverse] using this
  intro hc
  have := dropWhile_head_false (· = c) s a (ht ▸ hhead)
  simp [hc] at this

theorem dropWhile_eq_self_of_head (p : Char → Bool) (l : List Char)
    (h : ∀ a, l.head? = some a → p a = false) : l.dropWhile p = l := by
  cases l with
  | nil => rfl
  | cons a t => simp [List.dropWhile, h a rfl]

theorem pyStrip_eq_self (c : Char) (s : String)
    (h1 : ∀ a, s.toList.head? = some a → a ≠ c)
    (h2 : ∀ a, s.toList.getLast? = some a → a ≠ c) :
    pyStrip c s = s := by
  have hd : s.toList.dropWhile (· = c) = s.toList := by
    refine dropWhile_eq_self_of_head _ _ (fun a ha => ?_)
    simpa using h1 a ha
  have hrev : s.toList.reverse.dropWhile (· = c) = s.toList.reverse := by
    refine dropWhile_eq_self_of_head _ _ (fun a ha => ?_)
    have : s.toList.getLast? = some a := by simpa [List.head?_reverse] using ha
    simpa using h2 a this
  show (⟨pyStripList c s.toList⟩ : String) = s
  rw [pyStripList, hd, hrev, List.reverse_reverse]
  rfl

theorem cstep_inv {c c' : CConfig} (h : CStep c c') (hi : CInv c) : CInv c' := by
  cases h with
  | take r q fl u db =>
      simp [CInv] at *
      omega
  | register r' q fl u db hfl =>
      simp [CInv] at *
      omega
  | finish r q l1 l2 u db db' hdb =>
      simp [CInv] at *
      omega

theorem creach_inv {init : List Request} {db0 : List (Request × Response)}
    {c : CConfig} (h : CReach init db0 c) : CInv c := by
  induction h with
  | refl => rfl
  | tail _ hstep ih => exact cstep_inv hstep ih

/-!
## Claims
-/

/-- C1 (code_bug evidence).  The claim says a request-phase `Abort` stops
the chain at that hook AND abandons the unit (never sent, never stored).
The first half holds: `tagHook`, placed after the aborting hook, is never
invoked (the dispatched request still has empty headers).  The second half
is false on the code: `Request.run_hooks` exits its loop with `break` and
then returns the working request — never the `Abort` sentinel — so the
worker's `if request is Abort: continue` guard can never fire, the transport
`send` is called, and the storage `put` stores the response.  This
contradicts the `Hook` class docstring ("return Abort, in which case the
request is not sent"). -/
theorem c1_request_abort_unit_still_sent_and_stored :
    (processUnit stubSend [abortReqHook, tagHook] [] plainReq).dispatched
        = [plainReq] ∧
    (processUnit stubSend [abortReqHook, tagHook] [] plainReq).stored
        = some (plainReq, ⟨plainReq, 200, "ok", []⟩) :=
  ⟨rfl, rfl⟩

/-- C2 (code_bug evidence).  The claim says a response-phase `Abort`
prevents the storage `put` for the unit.  False on the code:
`Response.run_hooks` `break`s on `Abort` but returns the working response,
never the sentinel, so the worker's `if response is not Abort` guard is
always true and `db.put(request, response)` runs.  This contradicts the
`Hook` class docstring ("return Abort, in which case the response is not
further processed"). -/
theorem c2_response_abort_unit_still_stored :
    (processUnit stubSend [abortRespHook] [] plainReq).stored
        = some (plainReq, ⟨plainReq, 200, "ok", []⟩) :=
  rfl

/-- C4 (code_bug evidence).  The claim says an uncaught fault abandons only
its unit: the worker loop keeps processing subsequent queue items, and the
outstanding-work count is decremented on every exit path.  The second half
holds (`task_done()` sits in a `finally`, so the count drops 2 → 1 for the
faulting unit), but the first is false: the worker body is `try`/`finally`
with no `except`, so the exception propagates out of the `while True`
loop and the worker task terminates.  With one worker, the second queued
request is never processed and the state is stuck with a nonzero count —
`run()` hangs instead of processing `pageReq "2"`. -/
theorem c4_worker_fault_kills_worker :
    workerStep stubSend [faultHook] [] ⟨[pageReq "1", pageReq "2"], 2, [], true⟩
        = ⟨[pageReq "2"], 1, [], false⟩ ∧
    workerStep stubSend [faultHook] [] ⟨[pageReq "2"], 1, [], false⟩
        = ⟨[pageReq "2"], 1, [], false⟩ :=
  ⟨rfl, rfl⟩

/-- C3 (confirmed).  Conjuncts 1–3: over every trace of the collector
transition system (any worker count, any interleaving, hooks free to
register new work from inside in-flight units), the unfinished-task count
that `queue.join()` waits on always equals queued + in-flight work; hence
`run()`'s `await join()` can resume only when nothing is queued and nothing
is in flight, and a momentarily empty queue with a unit still in flight
keeps the count nonzero.  Conjuncts 4–7: the concrete 3-page pagination
scenario (each response answers with an `x-next-page` header; the
pagination hook registers the next page) drains fully: when the count hits
zero the queue is empty, the worker never faulted, and `iter_responses`
yields exactly one stored response for each of the three distinct page
identities. -/
theorem c3_run_returns_only_at_quiescence :
    (∀ (init : List Request) (db0 : List (Request × Response)) (c : CConfig),
        CReach init db0 c → c.unfinished = c.queue.length + c.inflight.length) ∧
    (∀ (init : List Request) (db0 : List (Request × Response)) (c : CConfig),
        CReach init db0 c → c.unfinished = 0 → c.queue = [] ∧ c.inflight = []) ∧
    (∀ (init : List Request) (db0 : List (Request × Response)) (c : CConfig),
        CReach init db0 c → c.inflight ≠ [] → c.unfinished ≠ 0) ∧
    (workerRun pagSend [paginationHook] [] 4 ⟨[pageReq "1"], 1, [], true⟩).queue
        = [] ∧
    (workerRun pagSend [paginationHook] [] 4 ⟨[pageReq "1"], 1, [], true⟩).unfinished
        = 0 ∧
    (workerRun pagSend [paginationHook] [] 4 ⟨[pageReq "1"], 1, [], true⟩).alive
        = true ∧
    (workerRun pagSend [paginationHook] [] 4 ⟨[pageReq "1"], 1, [], true⟩).db.map
        Prod.fst = [pageReq "1", pageReq "2", pageReq "3"] ∧
    (iter_responses
        (workerRun pagSend [paginationHook] [] 4 ⟨[pageReq "1"], 1, [], true⟩).db).length
        = 3 := by
  refine ⟨?_, ?_, ?_, rfl, rfl, rfl, by decide, by decide⟩
  · intro init db0 c h
    exact creach_inv h
  · intro init db0 c h hu
    have hi := creach_inv h
    rw [CInv, hu] at hi
    constructor
    · exact List.length_eq_zero.mp (by omega)
    · exact List.length_eq_zero.mp (by omega)
  · intro init db0 c h hfl hu
    have hi := creach_inv h
    rw [CInv, hu] at hi
    exact hfl (List.length_eq_zero.mp (by omega))

/-- Witness for C3: after the single transition in which a worker dequeues
the one pre-registered request (queue momentarily empty, unit in flight),
the unfinished count is provably nonzero, so `join()` cannot resume. -/
theorem c3_run_returns_only_at_quiescence_witness :
    (⟨[], [plainReq], 1, []⟩ : CConfig).unfinished ≠ 0 := by
  have hreach : CReach [plainReq] [] ⟨[], [plainReq], 1, []⟩ :=
    Relation.ReflTransGen.tail Relation.ReflTransGen.refl
      (CStep.take plainReq [] [] 1 [])
  exact c3_run_returns_only_at_quiescence.2.2.1 [plainReq] [] _ hreach
    (by simp)

/-- C5 (confirmed).  First conjunct: `Request.__eq__` holds between two
requests iff their resolved uri strings are equal and their query-argument
mappings are equal as maps.  Second conjunct: two requests differing only
in headers are equal, and they address the same storage slot — storing
under one and looking up under the other hits the same entry of the
database dict (headers enter neither `__eq__` nor the hashed tuple). -/
theorem c5_identity_ignores_headers :
    (∀ a b : Request,
        Request.eq a b = true ↔
          (a.uri = b.uri ∧ dictEq a.query_args b.query_args = true)) ∧
    (∀ (res : Resource) (ra qa h1 h2 : List (String × String))
        (db : List (Request × Response)) (resp : Response),
        (dictKeys qa).Nodup →
        Request.eq ⟨res, ra, qa, h1⟩ ⟨res, ra, qa, h2⟩ = true ∧
        dbGet (dbPut db ⟨res, ra, qa, h1⟩ resp) ⟨res, ra, qa, h2⟩ = some resp) := by
  constructor
  · intro a b
    simp [Request.eq, Bool.and_eq_true]
  · intro res ra qa h1 h2 db resp hnd
    have huri : (⟨res, ra, qa, h1⟩ : Request).uri = (⟨res, ra, qa, h2⟩ : Request).uri := rfl
    have heq : Request.eq ⟨res, ra, qa, h1⟩ ⟨res, ra, qa, h2⟩ = true := by
      simp [Request.eq, Bool.and_eq_true, dictEq_refl hnd, huri]
    refine ⟨heq, ?_⟩
    have hslot : sameSlot ⟨res, ra, qa, h1⟩ ⟨res, ra, qa, h2⟩ = true := by
      simp [sameSlot, Request.hashKey, heq, huri]
    exact dbGet_dbPut hslot resp db

/-- Witness for C5 at a concrete input: resource `users`, query args
`{a: 1}`, first request without headers, second with an `If-None-Match`
header. -/
theorem c5_identity_ignores_headers_witness :
    Request.eq ⟨usersResource, [], [("a", "1")], []⟩
        ⟨usersResource, [], [("a", "1")], [("If-None-Match", "x")]⟩ = true ∧
    dbGet (dbPut [] ⟨usersResource, [], [("a", "1")], []⟩
          ⟨plainReq, 200, "ok", []⟩)
        ⟨usersResource, [], [("a", "1")], [("If-None-Match", "x")]⟩
      = some ⟨plainReq, 200, "ok", []⟩ :=
  c5_identity_ignores_headers.2 usersResource [] [("a", "1")] []
    [("If-None-Match", "x")] [] ⟨plainReq, 200, "ok", []⟩ (by decide)

/-- The two C6 requests: equal query-argument mappings built in different
insertion orders. -/
def reqAB : Request := ⟨usersResource, [], [("a", "1"), ("b", "2")], []⟩

/-- Companion to `reqAB` with the opposite insertion order. -/
def reqBA : Request := ⟨usersResource, [], [("b", "2"), ("a", "1")], []⟩

/-- C6 (code_bug evidence).  The claim says equal requests hash equally,
and in particular that insertion order of the query args does not affect
the hash.  On the code, `__hash__` hashes
`(self.uri, tuple(self.query_args.items()))`, and `dict.items()` preserves
insertion order: `reqAB` and `reqBA` compare equal under `__eq__` yet feed
DIFFERENT tuples to `hash`, so their hashes differ whenever Python's tuple
hash separates the two tuples (which CPython's does for these values).
This violates Python's requirement that `a == b` implies
`hash(a) == hash(b)`, on which the dict keying of `FakeDatabase` relies. -/
theorem c6_equal_requests_distinct_hash_tuples :
    Request.eq reqAB reqBA = true ∧ reqAB.hashKey ≠ reqBA.hashKey := by
  constructor
  · decide
  · decide

/-- The C7 counterexample resource: template `{a}` (one placeholder,
named `a`). -/
def braceResource : Resource := ⟨"http://test.org", "\x7ba\x7d"⟩

/-- C7 counterexample.  The claim asserts that a supplied key matching no
placeholder fails with an UnknownRouteParameter-kind error naming the
violating key.  For template `{a}` and arguments `{b: x}` — where `b`
matches no placeholder — the code raises the MissingRouteArgument error
for `a` instead, because `_validate_route_args` tests the missing-keys set
first. -/
theorem c7_both_violations_counterexample :
    validate_route_args braceResource [("b", "x")]
        = some (.missingRouteArgument "a") ∧
    ∀ k, validate_route_args braceResource [("b", "x")]
        ≠ some (.unknownRouteParameter k) := by
  refine ⟨by decide, ?_⟩
  intro k h
  have h0 : validate_route_args braceResource [("b", "x")]
      = some (.missingRouteArgument "a") := by decide
  rw [h0] at h
  exact RouteArgError.noConfusion (Option.some.inj h)

/-- C7 amended (proved).  Construction succeeds iff the supplied key set
exactly equals the placeholder set.  A MissingRouteArgument error always
names a genuinely missing placeholder and is raised whenever one exists
(taking precedence over extra keys); an UnknownRouteParameter error always
names a genuinely extra key, implies that no placeholder was missing, and
is raised whenever all placeholders are supplied and an extra key
exists. -/
theorem c7_validation_amended (res : Resource)
    (args qa hs : List (String × String)) :
    ((∃ r, Request.make res args qa hs = .ok r) ↔
        ((∀ p ∈ res.route_params, p ∈ dictKeys args) ∧
         (∀ a ∈ dictKeys args, a ∈ res.route_params))) ∧
    (∀ k, validate_route_args res args = some (.missingRouteArgument k) →
        k ∈ res.route_params ∧ k ∉ dictKeys args) ∧
    ((∃ p, p ∈ res.route_params ∧ p ∉ dictKeys args) →
        ∃ k, validate_route_args res args = some (.missingRouteArgument k)) ∧
    (∀ k, validate_route_args res args = some (.unknownRouteParameter k) →
        (k ∈ dictKeys args ∧ k ∉ res.route_params) ∧
        ∀ p ∈ res.route_params, p ∈ dictKeys args) ∧
    ((∀ p ∈ res.route_params, p ∈ dictKeys args) →
     (∃ a, a ∈ dictKeys args ∧ a ∉ res.route_params) →
        ∃ k, validate_route_args res args = some (.unknownRouteParameter k)) := by
  cases hm : (res.route_params).find? (fun p => !((dictKeys args).contains p)) with
  | some p =>
      have hpP : p ∈ res.route_params := List.mem_of_find?_eq_some hm
      have hpA : p ∉ dictKeys args := by
        have := List.find?_some hm
        simpa [List.elem_iff] using this
      have hv : validate_route_args res args = some (.missingRouteArgument p) := by
        simp only [validate_route_args, hm]
      refine ⟨?_, ?_, ?_, ?_, ?_⟩
      · constructor
        · rintro ⟨r, hr⟩
          simp [Request.make, hv] at hr
        · rintro ⟨h1, -⟩
          exact absurd (h1 p hpP) hpA
      · intro k hk
        rw [hv] at hk
        injection Option.some.inj hk with h
        subst h
        exact ⟨hpP, hpA⟩
      · intro _
        exact ⟨p, hv⟩
      · intro k hk
        rw [hv] at hk
        exact absurd (Option.some.inj hk) (by simp)
      · intro hall _
        exact absurd (hall p hpP) hpA
  | none =>
      have hPsubA : ∀ p ∈ res.route_params, p ∈ dictKeys args := by
        intro p hp
        have := List.find?_eq_none.mp hm p hp
        simpa [List.elem_iff] using this
      cases hu : (dictKeys args).find? (fun a => !((res.route_params).contains a)) with
      | some a =>
          have haA : a ∈ dictKeys args := List.mem_of_find?_eq_some hu
          have haP : a ∉ res.route_params := by
            have := List.find?_some hu
            simpa [List.elem_iff] using this
          have hv : validate_route_args res args
              = some (.unknownRouteParameter a) := by
            simp only [validate_route_args, hm, hu]
          refine ⟨?_, ?_, ?_, ?_, ?_⟩
          · constructor
            · rintro ⟨r, hr⟩
              simp [Request.make, hv] at hr
            · rintro ⟨-, h2⟩
              exact absurd (h2 a haA) haP
          · intro k hk
            rw [hv] at hk
            exact absurd (Option.some.inj hk) (by simp)
          · rintro ⟨p, hp, hpA⟩
            exact absurd (hPsubA p hp) hpA
          · intro k hk
            rw [hv] at hk
            injection Option.some.inj hk with h
            subst h
            exact ⟨⟨haA, haP⟩, hPsubA⟩
          · intro _ _
            exact ⟨a, hv⟩
      | none =>
          have hAsubP : ∀ b ∈ dictKeys args, b ∈ res.route_params := by
            intro b hb
            have := List.find?_eq_none.mp hu b hb
            simpa [List.elem_iff] using this
          have hv : validate_route_args res args = none := by
            simp only [validate_route_args, hm, hu]
          refine ⟨?_, ?_, ?_, ?_, ?_⟩
          · constructor
            · intro _
              exact ⟨hPsubA, hAsubP⟩
            · intro _
              exact ⟨⟨res, args, qa, hs⟩, by simp [Request.make, hv]⟩
          · intro k hk
            rw [hv] at hk
            cases hk
          · rintro ⟨p, hp, hpA⟩
            exact absurd (hPsubA p hp) hpA
          · intro k hk
            rw [hv] at hk
            cases hk
          · rintro - ⟨b, hbA, hbP⟩
            exact absurd (hAsubP b hbA) hbP

/-- Witness for C7's amended statement: construction succeeds for template
`{a}` with exactly the argument key `a`. -/
theorem c7_validation_amended_witness :
    ∃ r, Request.make braceResource [("a", "v")] [] [] = .ok r :=
  (c7_validation_amended braceResource [("a", "v")] [] []).1.mpr
    ⟨by decide, by decide⟩

/-- C8 (confirmed).  The worker builds the chain
`hooks = resource.hooks + resource.api.hooks` (see `processUnit`); when no
handler aborts or raises, the request phase invokes `handle_request` on
exactly that list in forward order (resource hooks first) and the response
phase invokes `handle_response` on its reverse (api hooks first), as the
invocation traces show; the final conjunct spells out that the reverse of
`resource ++ api` is `api reversed ++ resource reversed`. -/
theorem c8_hook_order (resHooks apiHooks : List Hook) (r : Request)
    (s : Response)
    (hreq : ∀ h ∈ resHooks ++ apiHooks, ∀ q,
        h.handle_request q ≠ .abort ∧ h.handle_request q ≠ .fault)
    (hresp : ∀ h ∈ resHooks ++ apiHooks, ∀ t,
        (h.handle_response t).1 ≠ .abort ∧ (h.handle_response t).1 ≠ .fault) :
    (∃ r', Request.run_hooks r (resHooks ++ apiHooks)
        = .ok r' (resHooks ++ apiHooks)) ∧
    (∃ s' regs, Response.run_hooks s (resHooks ++ apiHooks)
        = .ok s' regs (resHooks ++ apiHooks).reverse) ∧
    (resHooks ++ apiHooks).reverse = apiHooks.reverse ++ resHooks.reverse := by
  refine ⟨?_, ?_, List.reverse_append _ _⟩
  · exact run_hooks_no_abort_fault (resHooks ++ apiHooks) r hreq
  · unfold Response.run_hooks
    exact respChain_no_abort_fault (resHooks ++ apiHooks).reverse s
      (fun h hh => hresp h (List.mem_reverse.mp hh))

/-- A no-op hook standing for a resource-level hook in the C8 witness. -/
def noopHookA : Hook := ⟨fun _ => .skip, fun _ => (.skip, [])⟩

/-- A no-op hook standing for an api-level hook in the C8 witness. -/
def noopHookB : Hook := ⟨fun _ => .skip, fun _ => (.skip, [])⟩

/-- A fixed response used by witnesses. -/
def stubResp : Response := ⟨plainReq, 200, "ok", []⟩

/-- Witness for C8 with one resource hook and one api hook. -/
theorem c8_hook_order_witness :
    (∃ r', Request.run_hooks plainReq ([noopHookA] ++ [noopHookB])
        = .ok r' ([noopHookA] ++ [noopHookB])) ∧
    (∃ s' regs, Response.run_hooks stubResp ([noopHookA] ++ [noopHookB])
        = .ok s' regs ([noopHookA] ++ [noopHookB]).reverse) ∧
    ([noopHookA] ++ [noopHookB]).reverse
        = [noopHookB].reverse ++ [noopHookA].reverse := by
  refine c8_hook_order [noopHookA] [noopHookB] plainReq stubResp ?_ ?_
  · intro h hh q
    rcases List.mem_cons.mp hh with rfl | hh'
    · exact ⟨by simp [noopHookA], by simp [noopHookA]⟩
    · rcases List.mem_singleton.mp hh' with rfl
      exact ⟨by simp [noopHookB], by simp [noopHookB]⟩
  · intro h hh t
    rcases List.mem_cons.mp hh with rfl | hh'
    · exact ⟨by simp [noopHookA], by simp [noopHookA]⟩
    · rcases List.mem_singleton.mp hh' with rfl
      exact ⟨by simp [noopHookB], by simp [noopHookB]⟩

/-- C9 (confirmed).  For a request that passed the construction invariant:
`route` is the template with each placeholder substituted by its argument
value; `uri` is the stripped host joined to the stripped route with a
single `/`; neither side of the join point carries a further slash (the
stripped host cannot end with `/` and the stripped route cannot begin with
one), so the join point holds exactly one slash; and for a host and route
with no surrounding slashes the join is literally `host + '/' + route`.
Both `route` and `uri` are pure functions of the request, so deriving them
leaves the request unchanged. -/
theorem c9_route_uri_derivation (r : Request)
    (hv : validate_route_args r.resource r.route_args = none) :
    r.route = ⟨formatChars r.route_args r.resource.route_template.toList⟩ ∧
    r.uri = pyStrip '/' r.resource.host ++ "/" ++ pyStrip '/' r.route ∧
    (∀ a, (pyStrip '/' r.resource.host).toList.getLast? = some a → a ≠ '/') ∧
    (∀ a, (pyStrip '/' r.route).toList.head? = some a → a ≠ '/') ∧
    ((∀ a, r.resource.host.toList.head? = some a → a ≠ '/') →
     (∀ a, r.resource.host.toList.getLast? = some a → a ≠ '/') →
     (∀ a, r.route.toList.head? = some a → a ≠ '/') →
     (∀ a, r.route.toList.getLast? = some a → a ≠ '/') →
     r.uri = r.resource.host ++ "/" ++ r.route) := by
  refine ⟨rfl, rfl, ?_, ?_, ?_⟩
  · intro a ha
    exact pyStripList_getLast_ne '/' r.resource.host.toList a ha
  · intro a ha
    exact pyStripList_head_ne '/' r.route.toList a ha
  · intro hh1 hh2 hr1 hr2
    show pyStrip '/' r.resource.host ++ "/" ++ pyStrip '/' r.route
        = r.resource.host ++ "/" ++ r.route
    rw [pyStrip_eq_self '/' r.resource.host hh1 hh2,
      pyStrip_eq_self '/' r.route hr1 hr2]

/-- Witness for C9 at `plainReq` (host `http://test.org`, template
`users`, no route arguments). -/
theorem c9_route_uri_derivation_witness :
    plainReq.uri = pyStrip '/' plainReq.resource.host ++ "/" ++
        pyStrip '/' plainReq.route ∧
    plainReq.route = "users" := by
  constructor
  · exact (c9_route_uri_derivation plainReq (by decide)).2.1
  · decide

/-- C10 (confirmed).  If no hook handler of the chain returns a
`Request`/`Response` instance or the `Abort` sentinel (for example when
every hook inherits the base `Hook` no-op handlers, which return `None`),
`run_hooks` returns the very object it was given; with an empty hook list
it is the identity. -/
theorem c10_noop_hooks_identity :
    (∀ (r : Request) (hooks : List Hook),
        (∀ h ∈ hooks, h.handle_request r = .skip) →
        Request.run_hooks r hooks = .ok r hooks) ∧
    (∀ (s : Response) (hooks : List Hook),
        (∀ h ∈ hooks, (h.handle_response s).1 = .skip) →
        ∃ regs, Response.run_hooks s hooks = .ok s regs hooks.reverse) ∧
    (∀ r : Request, Request.run_hooks r [] = .ok r []) ∧
    (∀ s : Response, Response.run_hooks s [] = .ok s [] []) := by
  refine ⟨?_, ?_, fun r => rfl, fun s => rfl⟩
  · exact fun r hooks hall => run_hooks_all_skip r hooks hall
  · intro s hooks hall
    unfold Response.run_hooks
    exact respChain_all_skip s hooks.reverse
      (fun h hh => hall h (List.mem_reverse.mp hh))

/-- Witness for C10: a chain of two no-op hooks leaves `plainReq` and
`stubResp` unchanged. -/
theorem c10_noop_hooks_identity_witness :
    Request.run_hooks plainReq [noopHookA, noopHookB]
        = .ok plainReq [noopHookA, noopHookB] ∧
    ∃ regs, Response.run_hooks stubResp [noopHookA, noopHookB]
        = .ok stubResp regs [noopHookA, noopHookB].reverse := by
  constructor
  · refine c10_noop_hooks_identity.1 plainReq [noopHookA, noopHookB] ?_
    intro h hh
    rcases List.mem_cons.mp hh with rfl | hh'
    · rfl
    · rcases List.mem_singleton.mp hh' with rfl
      rfl
  · refine c10_noop_hooks_identity.2.1 stubResp [noopHookA, noopHookB] ?_
    intro h hh
    rcases List.mem_cons.mp hh with rfl | hh'
    · rfl
    · rcases List.mem_singleton.mp hh' with rfl
      rfl

end Mapi
